import Mathlib

/-!
Verification of the data-fetch caching/slicing core and the derived-indicator
pipeline of the cryptocurrency dashboard (`app.py`), as a shallow embedding.

The embedding models:

* `_api_call_with_rate_limit` (app.py lines 28-59): the throttle clock
  `st.session_state.last_api_call_time`, the cooldown sleep, and the
  update-on-success discipline.  Wall-clock instants are rationals; the HTTP
  call itself is an oracle: `some completionTime` for a successful response
  (the `time.time()` read after `response.json()`), `none` for a
  `RequestException`.
* `get_cached_or_fetch_data` (app.py lines 62-127): the session cache
  `st.session_state.data_cache` becomes an explicit map from key strings to
  stored payloads, threaded through the call; the network fetch becomes an
  oracle from the requested width (the `days` argument) to an optional
  payload.  The result records the widths of the underlying API calls made
  and whether the partial-data warning (line 103) fired.
* the indicator columns built in `main` (app.py lines 231-242):
  `pct_change() * 100`, `rolling(window=k).mean()` with the pandas default
  `min_periods = window`, and the MACD columns.
-/

namespace CryptoDash

/-- A market-chart data point as returned by the upstream API: a
`[timestamp_ms, value]` pair. -/
abbrev Point : Type := ℤ × ℚ

/-- The parsed payload of a successful `market_chart` call: the
`{prices, total_volumes}` arrays, oldest first. -/
structure RawData where
  prices : List Point
  total_volumes : List Point
deriving DecidableEq

/-- The session cache `st.session_state.data_cache`: a Python dict from key
strings to stored payloads, modelled as a partial map. -/
abbrev Cache : Type := String → Option RawData

/-- `MAX_HOURLY_DAYS` (app.py line 67). -/
def MAX_HOURLY_DAYS : ℕ := 90

/-- `MAX_DAILY_DAYS` (app.py line 68). -/
def MAX_DAILY_DAYS : ℕ := 365

/-- The f-string cache key of the hourly bucket (app.py line 77):
`f"{coin_id}_{vs_currency}_hourly_{MAX_HOURLY_DAYS}"`. -/
def hourlyKey (coin_id vs_currency : String) : String :=
  coin_id ++ "_" ++ vs_currency ++ "_hourly_" ++ toString MAX_HOURLY_DAYS

/-- The f-string cache key of the daily bucket (app.py line 106):
`f"{coin_id}_{vs_currency}_daily_{MAX_DAILY_DAYS}"`. -/
def dailyKey (coin_id vs_currency : String) : String :=
  coin_id ++ "_" ++ vs_currency ++ "_daily_" ++ toString MAX_DAILY_DAYS

/-- The two cadence buckets of the cache. -/
inductive Cadence where
  | hourly90 : Cadence
  | daily365 : Cadence
deriving DecidableEq

/-- The bucket selected by the branch `if days_requested <= MAX_HOURLY_DAYS`
(app.py line 76). -/
def bucketOf (days_requested : ℕ) : Cadence :=
  if days_requested ≤ MAX_HOURLY_DAYS then Cadence.hourly90 else Cadence.daily365

/-- The full fetch width of a bucket: the `days` argument passed to
`_api_call_with_rate_limit` on a cache miss (app.py lines 80 and 109). -/
def fetchWidth : Cadence → ℕ
  | Cadence.hourly90 => MAX_HOURLY_DAYS
  | Cadence.daily365 => MAX_DAILY_DAYS

/-- The cache key of a bucket for a given asset and currency. -/
def cacheKeyOf (coin_id vs_currency : String) : Cadence → String
  | Cadence.hourly90 => hourlyKey coin_id vs_currency
  | Cadence.daily365 => dailyKey coin_id vs_currency

/-- Python's suffix slice `l[-n:]` for a natural `n`.  For `n = 0` the slice
index `-0` is `0`, so the whole list is returned; for `n > 0` it is the last
`n` elements (all of `l` when `n ≥ len(l)`). -/
def pySliceLast {α : Type} (n : ℕ) (l : List α) : List α :=
  if n = 0 then l else l.drop (l.length - n)

/-- The hourly slice step (app.py lines 94-103): take the last
`days_requested * 24` points of each array, and fire the warning of line 103
when the sliced prices are shorter than requested and `days_requested > 1`.
Returns the sliced payload and the warning flag. -/
def sliceHourly (full_data : RawData) (days_requested : ℕ) : RawData × Bool :=
  let sliced : RawData :=
    { prices := pySliceLast (days_requested * 24) full_data.prices
      total_volumes := pySliceLast (days_requested * 24) full_data.total_volumes }
  (sliced, decide (sliced.prices.length < days_requested * 24 ∧ 1 < days_requested))

/-- The daily slice step (app.py lines 122-125): take the last
`days_requested` points of each array. -/
def sliceDaily (full_data : RawData) (days_requested : ℕ) : RawData :=
  { prices := pySliceLast days_requested full_data.prices
    total_volumes := pySliceLast days_requested full_data.total_volumes }

/-- The outcome of one `get_cached_or_fetch_data` call: the value returned
(`final_data_to_process`, `None` on fetch failure), the cache after the call,
the widths of the API calls issued during the call (in order), and whether the
partial-data warning of line 103 fired. -/
structure GetResult where
  result : Option RawData
  cache : Cache
  apiCalls : List ℕ
  warned : Bool

/-- `get_cached_or_fetch_data(coin_id, vs_currency, days_requested)`
(app.py lines 62-127).  `fetcher days` is the outcome of
`_api_call_with_rate_limit(coin_id, vs_currency, days)`: `none` models the
`None` returned on a `RequestException`.  On a miss the code stores the
fetched payload under the key and then re-reads it for slicing
(lines 82 and 90); the model slices the stored payload directly. -/
def get_cached_or_fetch_data (fetcher : ℕ → Option RawData) (cache : Cache)
    (coin_id vs_currency : String) (days_requested : ℕ) : GetResult :=
  if days_requested ≤ MAX_HOURLY_DAYS then
    let cache_key := hourlyKey coin_id vs_currency
    match cache cache_key with
    | none =>
      match fetcher MAX_HOURLY_DAYS with
      | some fetched_data =>
        let cache' : Cache := fun k => if k = cache_key then some fetched_data else cache k
        let s := sliceHourly fetched_data days_requested
        ⟨some s.1, cache', [MAX_HOURLY_DAYS], s.2⟩
      | none => ⟨none, cache, [MAX_HOURLY_DAYS], false⟩
    | some full_data =>
      let s := sliceHourly full_data days_requested
      ⟨some s.1, cache, [], s.2⟩
  else
    let cache_key := dailyKey coin_id vs_currency
    match cache cache_key with
    | none =>
      match fetcher MAX_DAILY_DAYS with
      | some fetched_data =>
        let cache' : Cache := fun k => if k = cache_key then some fetched_data else cache k
        ⟨some (sliceDaily fetched_data days_requested), cache', [MAX_DAILY_DAYS], false⟩
      | none => ⟨none, cache, [MAX_DAILY_DAYS], false⟩
    | some full_data =>
      ⟨some (sliceDaily full_data days_requested), cache, [], false⟩

/-- Run a sequence of `get_cached_or_fetch_data` calls for a fixed asset and
currency, threading the cache; returns the final cache and the concatenated
widths of all underlying API calls. -/
def runGetWindows (fetcher : ℕ → Option RawData) (coin_id vs_currency : String) :
    Cache → List ℕ → Cache × List ℕ
  | cache, [] => (cache, [])
  | cache, d :: ds =>
    let r := get_cached_or_fetch_data fetcher cache coin_id vs_currency d
    let rest := runGetWindows fetcher coin_id vs_currency r.cache ds
    (rest.1, r.apiCalls ++ rest.2)

/-! ### Rate limiter (`_api_call_with_rate_limit`, app.py lines 28-59) -/

/-- The process-wide throttle state `st.session_state.last_api_call_time`. -/
structure RLState where
  last_api_call_time : ℚ
deriving DecidableEq

/-- `MIN_TIME_BETWEEN_CALLS = 2.5` seconds (app.py line 33). -/
def MIN_TIME_BETWEEN_CALLS : ℚ := 5 / 2

/-- The wall-clock instant at which the HTTP request of
`_api_call_with_rate_limit` is issued when the function is entered at
`current_time`: if less than `MIN_TIME_BETWEEN_CALLS` has elapsed since
`last_api_call_time`, the code sleeps for the remaining delta first
(app.py lines 39-44). -/
def requestStart (st : RLState) (current_time : ℚ) : ℚ :=
  let time_since_last_call := current_time - st.last_api_call_time
  if time_since_last_call < MIN_TIME_BETWEEN_CALLS then
    current_time + (MIN_TIME_BETWEEN_CALLS - time_since_last_call)
  else current_time

/-- One `_api_call_with_rate_limit` call entered at `current_time`.
`outcome` is the HTTP result: `some completion_time` for a successful
response, where `completion_time` is the `time.time()` read at line 53 (so it
is not earlier than the request start), and `none` for a
`RequestException`.  Returns the instant the request was issued and the
throttle state after the call: a success overwrites `last_api_call_time` with
the completion time, a failure leaves the state untouched. -/
def api_call_with_rate_limit (st : RLState) (current_time : ℚ)
    (outcome : Option ℚ) : ℚ × RLState :=
  match outcome with
  | some completion_time => (requestStart st current_time, ⟨completion_time⟩)
  | none => (requestStart st current_time, st)

/-! ### Indicator pipeline (app.py lines 231-242) -/

/-- `df_data['hourly_return'] = df_data['price'].pct_change() * 100`
(app.py line 231).  `pct_change` yields `(price[i] - price[i-1]) / price[i-1]`
for `i ≥ 1` and a missing value at `i = 0`; when the previous price is zero
the float result is not a finite number (`NaN` or an infinity), modelled here
as `none`. -/
def hourly_return (price : List ℚ) (i : ℕ) : Option ℚ :=
  if i = 0 then none
  else if price.getD (i - 1) 0 = 0 then none
  else some ((price.getD i 0 - price.getD (i - 1) 0) / price.getD (i - 1) 0 * 100)

/-- `df_data['price'].rolling(window=k).mean()` at row `i`
(app.py lines 234-235).  With the pandas default `min_periods = window`, the
value is the mean of the trailing window of the first `i + 1` prices when that
window holds `k` points, and missing otherwise. -/
def rolling_mean (k : ℕ) (price : List ℚ) (i : ℕ) : Option ℚ :=
  let window := (price.take (i + 1)).drop (i + 1 - k)
  if window.length < k then none else some (window.sum / (k : ℚ))

/-- `df_data['SMA_10']` (app.py line 234). -/
def SMA_10 (price : List ℚ) (i : ℕ) : Option ℚ := rolling_mean 10 price i

/-- `df_data['SMA_30']` (app.py line 235). -/
def SMA_30 (price : List ℚ) (i : ℕ) : Option ℚ := rolling_mean 30 price i

/-- Modelled from the spec: the exponential moving average used by the
`ta.macd(df_data['price'], fast=12, slow=26, signal=9)` call of app.py
line 238, whose `pandas_ta` implementation is not part of this repository's
sources.  The spec's recursive definition is
`EMA[0] = price[0]`, `EMA[i] = price[i] * α + EMA[i-1] * (1-α)` with
`α = 2/(period+1)`.  `emaFrom a prev l` continues the recursion over `l` with
smoothing factor `a` from the previous value `prev`. -/
def emaFrom (a prev : ℚ) : List ℚ → List ℚ
  | [] => []
  | x :: xs =>
    let e := x * a + prev * (1 - a)
    e :: emaFrom a e xs

/-- Modelled from the spec: the EMA of a series for a given period (see
`emaFrom`); `EMA[0] = price[0]`, later values follow the recursion with
`α = 2/(period+1)`, so the output has one value per input point. -/
def ema (period : ℕ) : List ℚ → List ℚ
  | [] => []
  | x :: xs => x :: emaFrom (2 / ((period : ℚ) + 1)) x xs

/-- Modelled from the spec: the `MACD_12_26_9` column of app.py line 238,
the fast EMA(12) minus the slow EMA(26) of the price, pointwise. -/
def macd_line (price : List ℚ) : List ℚ :=
  List.zipWith (fun f s => f - s) (ema 12 price) (ema 26 price)

/-- Modelled from the spec: the `MACDs_12_26_9` signal column of app.py
line 238, the EMA(9) of the MACD line. -/
def macd_signal (price : List ℚ) : List ℚ :=
  ema 9 (macd_line price)

/-- Modelled from the spec: the `MACDh_12_26_9` histogram column of app.py
line 238, the MACD line minus the signal line, pointwise. -/
def macd_histogram (price : List ℚ) : List ℚ :=
  List.zipWith (fun m s => m - s) (macd_line price) (macd_signal price)

/-! ### Concrete fixtures used by witnesses and counterexamples -/

/-- A stored hourly payload holding only ten data points. -/
def tenPointData : RawData :=
  { prices := (List.range 10).map (fun i : ℕ => ((i : ℤ), (i : ℚ)))
    total_volumes := (List.range 10).map (fun i : ℕ => ((i : ℤ), (i : ℚ))) }

/-- A session cache whose hourly bucket for bitcoin/usd holds `tenPointData`. -/
def tenPointCache : Cache :=
  fun k => if k = hourlyKey "bitcoin" "usd" then some tenPointData else none

/-- A stored daily payload holding 365 data points. -/
def yearData : RawData :=
  { prices := (List.range 365).map (fun i : ℕ => ((i : ℤ), (i : ℚ)))
    total_volumes := (List.range 365).map (fun i : ℕ => ((i : ℤ), (i : ℚ))) }

/-- A session cache whose daily bucket for bitcoin/usd holds `yearData`. -/
def yearCache : Cache :=
  fun k => if k = dailyKey "bitcoin" "usd" then some yearData else none

/-- The empty session cache. -/
def emptyCache : Cache := fun _ => none

/-! ### Helper lemmas on slicing -/

theorem pySliceLast_of_lt {α : Type} {n : ℕ} {l : List α} (h : l.length < n) :
    pySliceLast n l = l := by
  unfold pySliceLast
  rw [if_neg (by omega)]
  rw [Nat.sub_eq_zero_of_le (Nat.le_of_lt h), List.drop_zero]

theorem pySliceLast_length_of_le {α : Type} {n : ℕ} {l : List α}
    (hn : 0 < n) (h : n ≤ l.length) : (pySliceLast n l).length = n := by
  unfold pySliceLast
  rw [if_neg (by omega), List.length_drop]
  omega

theorem pySliceLast_suffix {α : Type} {n : ℕ} (hn : 0 < n) (l : List α) :
    l = l.take (l.length - n) ++ pySliceLast n l := by
  unfold pySliceLast
  rw [if_neg (by omega), List.take_append_drop]

theorem pySliceLast_length_lt_iff {α : Type} {n : ℕ} {l : List α} (hn : 0 < n) :
    (pySliceLast n l).length < n ↔ l.length < n := by
  rcases lt_or_le l.length n with h | h
  · rw [pySliceLast_of_lt h]
  · rw [pySliceLast_length_of_le hn h]
    omega

/-! ### Helper lemmas on `get_cached_or_fetch_data` -/

theorem get_hit_hourly {fetcher : ℕ → Option RawData} {cache : Cache}
    {coin_id vs_currency : String} {d : ℕ} {full : RawData}
    (h90 : d ≤ MAX_HOURLY_DAYS)
    (hc : cache (hourlyKey coin_id vs_currency) = some full) :
    get_cached_or_fetch_data fetcher cache coin_id vs_currency d =
      ⟨some (sliceHourly full d).1, cache, [], (sliceHourly full d).2⟩ := by
  unfold get_cached_or_fetch_data
  rw [if_pos h90]
  simp only [hc]

theorem get_hit_daily {fetcher : ℕ → Option RawData} {cache : Cache}
    {coin_id vs_currency : String} {d : ℕ} {full : RawData}
    (h90 : ¬ d ≤ MAX_HOURLY_DAYS)
    (hc : cache (dailyKey coin_id vs_currency) = some full) :
    get_cached_or_fetch_data fetcher cache coin_id vs_currency d =
      ⟨some (sliceDaily full d), cache, [], false⟩ := by
  unfold get_cached_or_fetch_data
  rw [if_neg h90]
  simp only [hc]

theorem get_hit_parts {fetcher : ℕ → Option RawData} {cache : Cache}
    {coin_id vs_currency : String} {d : ℕ} {full : RawData}
    (hc : cache (cacheKeyOf coin_id vs_currency (bucketOf d)) = some full) :
    (get_cached_or_fetch_data fetcher cache coin_id vs_currency d).cache = cache ∧
    (get_cached_or_fetch_data fetcher cache coin_id vs_currency d).apiCalls = [] := by
  by_cases h90 : d ≤ MAX_HOURLY_DAYS
  · rw [bucketOf, if_pos h90] at hc
    rw [get_hit_hourly h90 hc]
    exact ⟨rfl, rfl⟩
  · rw [bucketOf, if_neg h90] at hc
    rw [get_hit_daily h90 hc]
    exact ⟨rfl, rfl⟩

theorem get_miss_success_parts {fetcher : ℕ → Option RawData} {cache : Cache}
    {coin_id vs_currency : String} {d : ℕ} {data : RawData}
    (habs : cache (cacheKeyOf coin_id vs_currency (bucketOf d)) = none)
    (hf : fetcher (fetchWidth (bucketOf d)) = some data) :
    (get_cached_or_fetch_data fetcher cache coin_id vs_currency d).apiCalls =
      [fetchWidth (bucketOf d)] ∧
    (get_cached_or_fetch_data fetcher cache coin_id vs_currency d).cache
      (cacheKeyOf coin_id vs_currency (bucketOf d)) = some data := by
  by_cases h90 : d ≤ MAX_HOURLY_DAYS
  · rw [bucketOf, if_pos h90] at habs hf ⊢
    simp only [cacheKeyOf, fetchWidth] at habs hf ⊢
    unfold get_cached_or_fetch_data
    rw [if_pos h90]
    simp only [habs, hf]
    exact ⟨trivial, by simp⟩
  · rw [bucketOf, if_neg h90] at habs hf ⊢
    simp only [cacheKeyOf, fetchWidth] at habs hf ⊢
    unfold get_cached_or_fetch_data
    rw [if_neg h90]
    simp only [habs, hf]
    exact ⟨trivial, by simp⟩

theorem get_miss_fail {fetcher : ℕ → Option RawData} {cache : Cache}
    {coin_id vs_currency : String} {d : ℕ}
    (habs : cache (cacheKeyOf coin_id vs_currency (bucketOf d)) = none)
    (hf : fetcher (fetchWidth (bucketOf d)) = none) :
    get_cached_or_fetch_data fetcher cache coin_id vs_currency d =
      ⟨none, cache, [fetchWidth (bucketOf d)], false⟩ := by
  by_cases h90 : d ≤ MAX_HOURLY_DAYS
  · rw [bucketOf, if_pos h90] at habs hf ⊢
    simp only [cacheKeyOf, fetchWidth] at habs hf ⊢
    unfold get_cached_or_fetch_data
    rw [if_pos h90]
    simp only [habs, hf]
  · rw [bucketOf, if_neg h90] at habs hf ⊢
    simp only [cacheKeyOf, fetchWidth] at habs hf ⊢
    unfold get_cached_or_fetch_data
    rw [if_neg h90]
    simp only [habs, hf]

theorem get_preserves {fetcher : ℕ → Option RawData} {cache : Cache}
    {coin_id vs_currency : String} {d : ℕ} {k : String} {v : RawData}
    (hk : cache k = some v) :
    (get_cached_or_fetch_data fetcher cache coin_id vs_currency d).cache k = some v := by
  unfold get_cached_or_fetch_data
  by_cases h90 : d ≤ MAX_HOURLY_DAYS
  · rw [if_pos h90]
    rcases hcc : cache (hourlyKey coin_id vs_currency) with _ | full
    · rcases hff : fetcher MAX_HOURLY_DAYS with _ | data
      · simp only [hcc, hff]
        exact hk
      · simp only [hcc, hff]
        have hkk : ¬ k = hourlyKey coin_id vs_currency := by
          intro he
          rw [he, hcc] at hk
          exact Option.noConfusion hk
        rw [if_neg hkk]
        exact hk
    · simp only [hcc]
      exact hk
  · rw [if_neg h90]
    rcases hcc : cache (dailyKey coin_id vs_currency) with _ | full
    · rcases hff : fetcher MAX_DAILY_DAYS with _ | data
      · simp only [hcc, hff]
        exact hk
      · simp only [hcc, hff]
        have hkk : ¬ k = dailyKey coin_id vs_currency := by
          intro he
          rw [he, hcc] at hk
          exact Option.noConfusion hk
        rw [if_neg hkk]
        exact hk
    · simp only [hcc]
      exact hk

theorem run_preserves {fetcher : ℕ → Option RawData} {coin_id vs_currency : String}
    {k : String} {v : RawData} :
    ∀ {cache : Cache} (ds : List ℕ), cache k = some v →
      (runGetWindows fetcher coin_id vs_currency cache ds).1 k = some v := by
  intro cache ds
  induction ds generalizing cache with
  | nil => intro hk; exact hk
  | cons d ds ih =>
    intro hk
    exact ih (get_preserves hk)

theorem run_all_hits {fetcher : ℕ → Option RawData} {coin_id vs_currency : String}
    {b : Cadence} {v : RawData} :
    ∀ {cache : Cache} (ds : List ℕ),
      cache (cacheKeyOf coin_id vs_currency b) = some v →
      (∀ d ∈ ds, bucketOf d = b) →
      runGetWindows fetcher coin_id vs_currency cache ds = (cache, []) := by
  intro cache ds
  induction ds generalizing cache with
  | nil => intro _ _; rfl
  | cons d ds ih =>
    intro hk hb
    have hbd : bucketOf d = b := hb d (List.mem_cons_self d ds)
    have hhit := @get_hit_parts fetcher cache coin_id vs_currency d v
      (by rw [hbd]; exact hk)
    unfold runGetWindows
    simp only [hhit.1, hhit.2, ih hk (fun x hx => hb x (List.mem_cons_of_mem d hx)),
      List.nil_append]

/-- A cache miss issues exactly one API call of the bucket's full width,
whether or not the fetch succeeds. -/
theorem get_miss_calls {fetcher : ℕ → Option RawData} {cache : Cache}
    {coin_id vs_currency : String} {d : ℕ}
    (habs : cache (cacheKeyOf coin_id vs_currency (bucketOf d)) = none) :
    (get_cached_or_fetch_data fetcher cache coin_id vs_currency d).apiCalls =
      [fetchWidth (bucketOf d)] := by
  rcases hff : fetcher (fetchWidth (bucketOf d)) with _ | data
  · rw [get_miss_fail habs hff]
  · exact (get_miss_success_parts habs hff).1

/-! ### Helper lemmas on the indicator pipeline -/

theorem emaFrom_length (a prev : ℚ) (l : List ℚ) :
    (emaFrom a prev l).length = l.length := by
  induction l generalizing prev with
  | nil => rfl
  | cons x xs ih => simp [emaFrom, ih]

theorem ema_length (p : ℕ) (l : List ℚ) : (ema p l).length = l.length := by
  cases l with
  | nil => rfl
  | cons x xs => simp [ema, emaFrom_length]

theorem macd_line_length (price : List ℚ) :
    (macd_line price).length = price.length := by
  simp [macd_line, ema_length]

theorem macd_signal_length (price : List ℚ) :
    (macd_signal price).length = price.length := by
  rw [macd_signal, ema_length, macd_line_length]

theorem emaFrom_getD_succ (a : ℚ) (l : List ℚ) :
    ∀ (prev : ℚ) (i : ℕ), i + 1 < l.length →
      (emaFrom a prev l).getD (i + 1) 0 =
        l.getD (i + 1) 0 * a + (emaFrom a prev l).getD i 0 * (1 - a) := by
  induction l with
  | nil =>
    intro prev i h
    simp at h
  | cons x xs ih =>
    intro prev i h
    cases i with
    | zero =>
      cases xs with
      | nil => simp at h
      | cons y ys => simp [emaFrom]
    | succ j =>
      have h' : j + 1 < xs.length := by simpa using h
      simp only [emaFrom, List.getD_cons_succ]
      exact ih (x * a + prev * (1 - a)) j h'

theorem ema_getD_zero (p : ℕ) (l : List ℚ) : (ema p l).getD 0 0 = l.getD 0 0 := by
  cases l <;> simp [ema]

theorem ema_getD_succ (p : ℕ) (l : List ℚ) (i : ℕ) (h : i + 1 < l.length) :
    (ema p l).getD (i + 1) 0 =
      l.getD (i + 1) 0 * (2 / ((p : ℚ) + 1)) +
        (ema p l).getD i 0 * (1 - 2 / ((p : ℚ) + 1)) := by
  cases l with
  | nil => simp at h
  | cons x xs =>
    cases i with
    | zero =>
      cases xs with
      | nil => simp at h
      | cons y ys => simp [ema, emaFrom]
    | succ j =>
      have h' : j + 1 < xs.length := by simpa using h
      simp only [ema, List.getD_cons_succ]
      exact emaFrom_getD_succ _ _ _ _ h'

theorem macd_line_getD (price : List ℚ) (i : ℕ) (h : i < price.length) :
    (macd_line price).getD i 0 =
      (ema 12 price).getD i 0 - (ema 26 price).getD i 0 := by
  have h12 : i < (ema 12 price).length := by rw [ema_length]; exact h
  have h26 : i < (ema 26 price).length := by rw [ema_length]; exact h
  have hz : i < (macd_line price).length := by rw [macd_line_length]; exact h
  rw [List.getD_eq_getElem _ _ hz, List.getD_eq_getElem _ _ h12,
    List.getD_eq_getElem _ _ h26]
  simp [macd_line]

theorem macd_histogram_getD (price : List ℚ) (i : ℕ) (h : i < price.length) :
    (macd_histogram price).getD i 0 =
      (macd_line price).getD i 0 - (macd_signal price).getD i 0 := by
  have hm : i < (macd_line price).length := by rw [macd_line_length]; exact h
  have hs : i < (macd_signal price).length := by rw [macd_signal_length]; exact h
  have hh : i < (macd_histogram price).length := by
    simp [macd_histogram, macd_line_length, macd_signal_length]
    omega
  rw [List.getD_eq_getElem _ _ hh, List.getD_eq_getElem _ _ hm,
    List.getD_eq_getElem _ _ hs]
  simp [macd_histogram]

theorem rolling_mean_some (k : ℕ) (price : List ℚ) (i : ℕ)
    (hk : 0 < k) (hi : i < price.length) (hki : k - 1 ≤ i) :
    rolling_mean k price i =
      some (((price.drop (i + 1 - k)).take k).sum / (k : ℚ)) := by
  have hw : (price.take (i + 1)).drop (i + 1 - k) =
      (price.drop (i + 1 - k)).take k := by
    rw [List.drop_take]
    congr 1
    omega
  have hlen : ((price.drop (i + 1 - k)).take k).length = k := by
    rw [List.length_take, List.length_drop]
    omega
  simp only [rolling_mean, hw]
  rw [if_neg (by rw [hlen]; omega)]

theorem rolling_mean_none (k : ℕ) (price : List ℚ) (i : ℕ) (hik : i < k - 1) :
    rolling_mean k price i = none := by
  have hlen : ((price.take (i + 1)).drop (i + 1 - k)).length < k := by
    rw [List.length_drop, List.length_take]
    omega
  simp only [rolling_mean]
  rw [if_pos hlen]

theorem yearData_prices_length : yearData.prices.length = 365 := by
  show ((List.range 365).map (fun i : ℕ => ((i : ℤ), (i : ℚ)))).length = 365
  rw [List.length_map, List.length_range]

/-! ### Claim theorems -/

/-- C1: for a fixed (asset, currency, cadence bucket), any sequence of
`get_cached_or_fetch_data` calls whose requested day counts all fall in that
bucket issues exactly one underlying network fetch: the first call on an
absent key issues one API call of the bucket's full width and stores the
payload under the bucket key, and every later call of the sequence issues no
API call at all. -/
theorem C1_at_most_one_fetch (fetcher : ℕ → Option RawData)
    (coin_id vs_currency : String) (cache : Cache) (b : Cadence)
    (data : RawData) (d₀ : ℕ) (ds : List ℕ)
    (hb : ∀ d ∈ d₀ :: ds, bucketOf d = b)
    (habs : cache (cacheKeyOf coin_id vs_currency b) = none)
    (hf : fetcher (fetchWidth b) = some data) :
    (runGetWindows fetcher coin_id vs_currency cache (d₀ :: ds)).2 = [fetchWidth b] ∧
    (get_cached_or_fetch_data fetcher cache coin_id vs_currency d₀).apiCalls =
      [fetchWidth b] ∧
    (get_cached_or_fetch_data fetcher cache coin_id vs_currency d₀).cache
      (cacheKeyOf coin_id vs_currency b) = some data ∧
    (runGetWindows fetcher coin_id vs_currency
      (get_cached_or_fetch_data fetcher cache coin_id vs_currency d₀).cache ds).2 = [] := by
  have hb0 : bucketOf d₀ = b := hb d₀ (List.mem_cons_self _ _)
  have hmiss := @get_miss_success_parts fetcher cache coin_id vs_currency d₀ data
    (by rw [hb0]; exact habs) (by rw [hb0]; exact hf)
  rw [hb0] at hmiss
  have hrest := @run_all_hits fetcher coin_id vs_currency b data _ ds hmiss.2
    (fun x hx => hb x (List.mem_cons_of_mem _ hx))
  refine ⟨?_, hmiss.1, hmiss.2, by rw [hrest]⟩
  unfold runGetWindows
  simp only [hrest, hmiss.1, List.append_nil]

/-- C1 witness: on an empty cache, three hourly-bucket requests of 5, 30 and
90 days with an always-successful fetcher issue exactly one 90-day fetch. -/
theorem C1_at_most_one_fetch_witness :
    (∀ d ∈ [5, 30, 90], bucketOf d = Cadence.hourly90) ∧
    emptyCache (cacheKeyOf "bitcoin" "usd" Cadence.hourly90) = none ∧
    (runGetWindows (fun _ => some tenPointData) "bitcoin" "usd" emptyCache
      [5, 30, 90]).2 = [fetchWidth Cadence.hourly90] :=
  ⟨by decide, rfl,
    (C1_at_most_one_fetch (fun _ => some tenPointData) "bitcoin" "usd" emptyCache
      Cadence.hourly90 tenPointData 5 [30, 90] (by decide) rfl rfl).1⟩

/-- C2: for every requested day count from 1 to 365, the cadence bucket is
HOURLY_90 (fetch width 90) exactly when the request is at most 90 days and
DAILY_365 (fetch width 365) exactly when it exceeds 90; in particular 90
selects HOURLY_90 and 91 selects DAILY_365, and on an empty cache the call
issues exactly the selected bucket's full width. -/
theorem C2_bucket_boundary (fetcher : ℕ → Option RawData)
    (coin_id vs_currency : String) (d : ℕ) (h1 : 1 ≤ d) (h365 : d ≤ 365) :
    (bucketOf d = Cadence.hourly90 ↔ d ≤ 90) ∧
    (bucketOf d = Cadence.daily365 ↔ 90 < d) ∧
    fetchWidth Cadence.hourly90 = 90 ∧
    fetchWidth Cadence.daily365 = 365 ∧
    bucketOf 90 = Cadence.hourly90 ∧
    bucketOf 91 = Cadence.daily365 ∧
    (get_cached_or_fetch_data fetcher emptyCache coin_id vs_currency d).apiCalls =
      [fetchWidth (bucketOf d)] := by
  refine ⟨?_, ?_, rfl, rfl, by decide, by decide, get_miss_calls rfl⟩
  · rw [bucketOf, MAX_HOURLY_DAYS]
    by_cases h : d ≤ 90
    · rw [if_pos h]
      simp [h]
    · rw [if_neg h]
      simp [h]
  · rw [bucketOf, MAX_HOURLY_DAYS]
    by_cases h : d ≤ 90
    · rw [if_pos h]
      simp
      omega
    · rw [if_neg h]
      simp
      omega

/-- C2 witness: the boundary instance at 90 requested days. -/
theorem C2_bucket_boundary_witness :
    1 ≤ 90 ∧ 90 ≤ 365 ∧ (bucketOf 90 = Cadence.hourly90 ↔ 90 ≤ 90) ∧
    (get_cached_or_fetch_data (fun _ => none) emptyCache "bitcoin" "usd" 90).apiCalls =
      [fetchWidth (bucketOf 90)] :=
  ⟨by norm_num, by norm_num,
    (C2_bucket_boundary (fun _ => none) "bitcoin" "usd" 90 (by norm_num)
      (by norm_num)).1,
    (C2_bucket_boundary (fun _ => none) "bitcoin" "usd" 90 (by norm_num)
      (by norm_num)).2.2.2.2.2.2⟩

/-- C3: the HTTP request of a rate-limited call starts at least
`MIN_TIME_BETWEEN_CALLS = 2.5` seconds after `last_api_call_time`; entering
within the cooldown sleeps exactly the remaining delta; a successful call
overwrites `last_api_call_time` with its completion time while a failed call
leaves it untouched; hence the starts of two back-to-back calls, the first of
which succeeds, are at least 2.5 seconds apart. -/
theorem C3_rate_limit_spacing (st : RLState) (t₁ c₁ t₂ : ℚ) (o₂ : Option ℚ)
    (hc₁ : requestStart st t₁ ≤ c₁) :
    (t₁ - st.last_api_call_time < MIN_TIME_BETWEEN_CALLS →
      requestStart st t₁ =
        t₁ + (MIN_TIME_BETWEEN_CALLS - (t₁ - st.last_api_call_time))) ∧
    st.last_api_call_time + MIN_TIME_BETWEEN_CALLS ≤ requestStart st t₁ ∧
    (api_call_with_rate_limit st t₁ (some c₁)).2.last_api_call_time = c₁ ∧
    (api_call_with_rate_limit st t₁ none).2 = st ∧
    (api_call_with_rate_limit st t₁ (some c₁)).1 + MIN_TIME_BETWEEN_CALLS ≤
      (api_call_with_rate_limit
        ((api_call_with_rate_limit st t₁ (some c₁)).2) t₂ o₂).1 := by
  have hgap : ∀ s : RLState, ∀ t : ℚ,
      s.last_api_call_time + MIN_TIME_BETWEEN_CALLS ≤ requestStart s t := by
    intro s t
    rw [requestStart]
    split <;> rename_i hsplit
    · linarith
    · simp only [not_lt] at hsplit
      linarith
  refine ⟨?_, hgap st t₁, rfl, rfl, ?_⟩
  · intro hlt
    rw [requestStart]
    exact if_pos hlt
  · have h₂ : (api_call_with_rate_limit
        ((api_call_with_rate_limit st t₁ (some c₁)).2) t₂ o₂).1 =
        requestStart ⟨c₁⟩ t₂ := by
      cases o₂ <;> rfl
    rw [h₂]
    have := hgap ⟨c₁⟩ t₂
    simp only at this
    calc (api_call_with_rate_limit st t₁ (some c₁)).1 + MIN_TIME_BETWEEN_CALLS
        = requestStart st t₁ + MIN_TIME_BETWEEN_CALLS := rfl
      _ ≤ c₁ + MIN_TIME_BETWEEN_CALLS := by linarith
      _ ≤ requestStart ⟨c₁⟩ t₂ := this

/-- C3 witness: from the initial clock 0, a call entered at second 1 starts
at second 2.5, completes at second 4, and the next call starts no earlier
than second 6.5. -/
theorem C3_rate_limit_spacing_witness :
    requestStart ⟨0⟩ 1 ≤ 4 ∧
    (api_call_with_rate_limit ⟨0⟩ 1 (some 4)).2.last_api_call_time = 4 ∧
    (api_call_with_rate_limit ⟨0⟩ 1 (some 4)).1 + MIN_TIME_BETWEEN_CALLS ≤
      (api_call_with_rate_limit ((api_call_with_rate_limit ⟨0⟩ 1 (some 4)).2) 5 none).1 := by
  have hle : requestStart ⟨0⟩ 1 ≤ 4 := by
    rw [requestStart, MIN_TIME_BETWEEN_CALLS]
    norm_num
  exact ⟨hle, (C3_rate_limit_spacing ⟨0⟩ 1 4 5 none hle).2.2.1,
    (C3_rate_limit_spacing ⟨0⟩ 1 4 5 none hle).2.2.2.2⟩

/-- C4: when the bucket key is absent and the underlying fetch fails, the
call returns `none` (the failure is propagated) and the cache is left
unchanged, the key in particular still absent. -/
theorem C4_failure_not_cached (fetcher : ℕ → Option RawData) (cache : Cache)
    (coin_id vs_currency : String) (d : ℕ)
    (habs : cache (cacheKeyOf coin_id vs_currency (bucketOf d)) = none)
    (hf : fetcher (fetchWidth (bucketOf d)) = none) :
    (get_cached_or_fetch_data fetcher cache coin_id vs_currency d).result = none ∧
    (get_cached_or_fetch_data fetcher cache coin_id vs_currency d).cache = cache ∧
    (get_cached_or_fetch_data fetcher cache coin_id vs_currency d).cache
      (cacheKeyOf coin_id vs_currency (bucketOf d)) = none := by
  rw [get_miss_fail habs hf]
  exact ⟨rfl, rfl, habs⟩

/-- C4 witness: a failing fetch on the empty cache at a 5-day request. -/
theorem C4_failure_not_cached_witness :
    emptyCache (cacheKeyOf "bitcoin" "usd" (bucketOf 5)) = none ∧
    (get_cached_or_fetch_data (fun _ => none) emptyCache "bitcoin" "usd" 5).result =
      none ∧
    (get_cached_or_fetch_data (fun _ => none) emptyCache "bitcoin" "usd" 5).cache
      (cacheKeyOf "bitcoin" "usd" (bucketOf 5)) = none :=
  ⟨rfl,
    (C4_failure_not_cached (fun _ => none) emptyCache "bitcoin" "usd" 5 rfl rfl).1,
    (C4_failure_not_cached (fun _ => none) emptyCache "bitcoin" "usd" 5 rfl rfl).2.2⟩

/-- C5 counterexample: with only ten hourly points cached for bitcoin/usd, a
one-day request wants `1 * 24 = 24` points; the call returns all ten
available points but the partial-data warning does not fire, refuting the
claim that the advisory is signalled for every requested day count in the
bucket whenever fewer points exist than requested. -/
theorem C5_partial_data_counterexample :
    tenPointData.prices.length < 1 * 24 ∧
    (get_cached_or_fetch_data (fun _ => none) tenPointCache "bitcoin" "usd" 1).result =
      some tenPointData ∧
    (get_cached_or_fetch_data (fun _ => none) tenPointCache "bitcoin" "usd" 1).warned =
      false :=
  ⟨by decide, by decide, by decide⟩

/-- C5 (amended): on an hourly-bucket cache hit the call always returns data
(never an error); when the cached parallel series are shorter than
`requestedDays * 24` points it returns all available points unchanged; and
the partial-data advisory fires exactly when fewer points exist than
requested AND the request is for more than one day. -/
theorem C5_partial_data_advisory (fetcher : ℕ → Option RawData) (cache : Cache)
    (coin_id vs_currency : String) (d : ℕ) (full : RawData)
    (h1 : 1 ≤ d) (h90 : d ≤ MAX_HOURLY_DAYS)
    (hc : cache (hourlyKey coin_id vs_currency) = some full)
    (hlen : full.total_volumes.length = full.prices.length) :
    (∃ s, (get_cached_or_fetch_data fetcher cache coin_id vs_currency d).result =
      some s) ∧
    (full.prices.length < d * 24 →
      (get_cached_or_fetch_data fetcher cache coin_id vs_currency d).result =
        some full) ∧
    ((get_cached_or_fetch_data fetcher cache coin_id vs_currency d).warned = true ↔
      (full.prices.length < d * 24 ∧ 1 < d)) := by
  have h24 : 0 < d * 24 := by omega
  rw [get_hit_hourly h90 hc]
  refine ⟨⟨_, rfl⟩, ?_, ?_⟩
  · intro hlt
    simp only [sliceHourly]
    rw [pySliceLast_of_lt hlt, pySliceLast_of_lt (by rw [hlen]; exact hlt)]
  · simp only [sliceHourly, decide_eq_true_eq]
    rw [pySliceLast_length_lt_iff h24]

/-- C5 amended witness: a two-day request against the ten-point cache fires
the advisory. -/
theorem C5_partial_data_advisory_witness :
    (1 ≤ 2 ∧ 2 ≤ MAX_HOURLY_DAYS ∧
      tenPointCache (hourlyKey "bitcoin" "usd") = some tenPointData ∧
      tenPointData.total_volumes.length = tenPointData.prices.length) ∧
    ((get_cached_or_fetch_data (fun _ => none) tenPointCache "bitcoin" "usd" 2).warned =
        true ↔ (tenPointData.prices.length < 2 * 24 ∧ 1 < 2)) :=
  ⟨⟨by norm_num, by decide, rfl, by decide⟩,
    (C5_partial_data_advisory (fun _ => none) tenPointCache "bitcoin" "usd" 2
      tenPointData (by norm_num) (by decide) rfl (by decide)).2.2⟩

/-- C6: on a daily-bucket cache hit the call returns exactly the last
`requestedDays` points of the cached prices and volumes — the suffix of each
series, with the oldest-first order preserved — and the daily slice of any
365-point series at 30 requested days is exactly its 30-point suffix. -/
theorem C6_daily_slice_correct (fetcher : ℕ → Option RawData) (cache : Cache)
    (coin_id vs_currency : String) (d : ℕ) (full : RawData)
    (hd : MAX_HOURLY_DAYS < d)
    (hc : cache (dailyKey coin_id vs_currency) = some full) :
    (get_cached_or_fetch_data fetcher cache coin_id vs_currency d).result =
      some ⟨pySliceLast d full.prices, pySliceLast d full.total_volumes⟩ ∧
    (d ≤ full.prices.length →
      (pySliceLast d full.prices).length = d ∧
      full.prices =
        full.prices.take (full.prices.length - d) ++ pySliceLast d full.prices) ∧
    (∀ l : List Point, l.length = 365 →
      (pySliceLast 30 l).length = 30 ∧ l = l.take 335 ++ pySliceLast 30 l) := by
  have h90 : ¬ d ≤ MAX_HOURLY_DAYS := by omega
  have hd0 : 0 < d := by
    rw [MAX_HOURLY_DAYS] at hd
    omega
  rw [get_hit_daily h90 hc]
  refine ⟨rfl, fun hle => ⟨pySliceLast_length_of_le hd0 hle,
    pySliceLast_suffix hd0 _⟩, ?_⟩
  intro l hl
  refine ⟨pySliceLast_length_of_le (by norm_num) (by omega), ?_⟩
  have h2 := pySliceLast_suffix (n := 30) (by norm_num) l
  rw [hl] at h2
  norm_num at h2
  exact h2

/-- C6 witness: a 100-day request against a cached 365-point daily series,
plus the 30-day suffix instance on that series. -/
theorem C6_daily_slice_correct_witness :
    MAX_HOURLY_DAYS < 100 ∧
    yearCache (dailyKey "bitcoin" "usd") = some yearData ∧
    (get_cached_or_fetch_data (fun _ => none) yearCache "bitcoin" "usd" 100).result =
      some ⟨pySliceLast 100 yearData.prices, pySliceLast 100 yearData.total_volumes⟩ ∧
    (pySliceLast 30 yearData.prices).length = 30 :=
  ⟨by decide, rfl,
    (C6_daily_slice_correct (fun _ => none) yearCache "bitcoin" "usd" 100 yearData
      (by decide) rfl).1,
    ((C6_daily_slice_correct (fun _ => none) yearCache "bitcoin" "usd" 100 yearData
      (by decide) rfl).2.2 yearData.prices yearData_prices_length).1⟩

/-- C10: a cache hit returns the cache entirely unchanged, and no sequence of
`get_cached_or_fetch_data` calls ever overwrites an existing entry: whatever
payload a key holds before the run, it holds the identical payload — same
elements, same order — afterwards. -/
theorem C10_cache_never_mutated (fetcher : ℕ → Option RawData)
    (coin_id vs_currency : String) (cache : Cache) (ds : List ℕ)
    (k : String) (v : RawData) (d : ℕ) (full : RawData) :
    (cache k = some v →
      (runGetWindows fetcher coin_id vs_currency cache ds).1 k = some v) ∧
    (cache (cacheKeyOf coin_id vs_currency (bucketOf d)) = some full →
      (get_cached_or_fetch_data fetcher cache coin_id vs_currency d).cache = cache) :=
  ⟨fun hk => run_preserves ds hk, fun hc => (get_hit_parts hc).1⟩

/-- C10 witness: after a 5-day hit and a 100-day daily fetch, the hourly
entry for bitcoin/usd still holds the original ten-point payload. -/
theorem C10_cache_never_mutated_witness :
    tenPointCache (hourlyKey "bitcoin" "usd") = some tenPointData ∧
    (runGetWindows (fun _ => some yearData) "bitcoin" "usd" tenPointCache
      [5, 100]).1 (hourlyKey "bitcoin" "usd") = some tenPointData ∧
    (get_cached_or_fetch_data (fun _ => some yearData) tenPointCache "bitcoin"
      "usd" 7).cache = tenPointCache :=
  ⟨rfl,
    (C10_cache_never_mutated (fun _ => some yearData) "bitcoin" "usd" tenPointCache
      [5, 100] (hourlyKey "bitcoin" "usd") tenPointData 7 tenPointData).1 rfl,
    (C10_cache_never_mutated (fun _ => some yearData) "bitcoin" "usd" tenPointCache
      [5, 100] (hourlyKey "bitcoin" "usd") tenPointData 7 tenPointData).2 rfl⟩

/-- C7: the MACD columns follow the recursive EMA definition
`EMA[0] = price[0]`, `EMA[i] = price[i] * α + EMA[i-1] * (1-α)` with
`α = 2/(period+1)`: the MACD line is EMA(12) minus EMA(26) of the price, the
signal is EMA(9) of the MACD line, the histogram is line minus signal, and
the MACD line has one value for every input index — defined from index 0
onward — so it is computed in full even for series shorter than 26 points. -/
theorem C7_macd_recursive_ema (price : List ℚ) :
    (macd_line price).length = price.length ∧
    (∀ i, i < price.length →
      (macd_line price).getD i 0 = (ema 12 price).getD i 0 - (ema 26 price).getD i 0) ∧
    macd_signal price = ema 9 (macd_line price) ∧
    (∀ i, i < price.length →
      (macd_histogram price).getD i 0 =
        (macd_line price).getD i 0 - (macd_signal price).getD i 0) ∧
    (∀ p : ℕ, (ema p price).getD 0 0 = price.getD 0 0) ∧
    (∀ (p i : ℕ), i + 1 < price.length →
      (ema p price).getD (i + 1) 0 =
        price.getD (i + 1) 0 * (2 / ((p : ℚ) + 1)) +
          (ema p price).getD i 0 * (1 - 2 / ((p : ℚ) + 1))) ∧
    (price.length < 26 → (macd_line price).length = price.length) :=
  ⟨macd_line_length price,
    fun i hi => macd_line_getD price i hi,
    rfl,
    fun i hi => macd_histogram_getD price i hi,
    fun p => ema_getD_zero p price,
    fun p i hi => ema_getD_succ p price i hi,
    fun _ => macd_line_length price⟩

/-- C7 witness: the EMA recurrence at index 1 of a three-point series that
has fewer than 26 points. -/
theorem C7_macd_recursive_ema_witness :
    ([1, 2, 3] : List ℚ).length < 26 ∧
    (macd_line [1, 2, 3]).length = ([1, 2, 3] : List ℚ).length ∧
    (0 + 1 < ([1, 2, 3] : List ℚ).length ∧
      (ema 12 [1, 2, 3]).getD (0 + 1) 0 =
        ([1, 2, 3] : List ℚ).getD (0 + 1) 0 * (2 / ((12 : ℚ) + 1)) +
          (ema 12 [1, 2, 3]).getD 0 0 * (1 - 2 / ((12 : ℚ) + 1))) :=
  ⟨by norm_num, (C7_macd_recursive_ema [1, 2, 3]).2.2.2.2.2.2 (by norm_num),
    by norm_num, (C7_macd_recursive_ema [1, 2, 3]).2.2.2.2.2.1 12 0 (by norm_num)⟩

/-- C8: the SMA_10 and SMA_30 columns are the trailing arithmetic means of
the last `k` prices — `mean(price[i-k+1 .. i])` — once `i ≥ k-1`, and are
null before that, so the first 9 entries of SMA_10 and the first 29 entries
of SMA_30 are null. -/
theorem C8_sma_trailing_mean (price : List ℚ) :
    (∀ i, i < price.length → 9 ≤ i →
      SMA_10 price i = some (((price.drop (i + 1 - 10)).take 10).sum / (10 : ℚ))) ∧
    (∀ i, i < 9 → SMA_10 price i = none) ∧
    (∀ i, i < price.length → 29 ≤ i →
      SMA_30 price i = some (((price.drop (i + 1 - 30)).take 30).sum / (30 : ℚ))) ∧
    (∀ i, i < 29 → SMA_30 price i = none) :=
  ⟨fun i hi h9 => rolling_mean_some 10 price i (by norm_num) hi (by omega),
    fun i hi => rolling_mean_none 10 price i (by omega),
    fun i hi h29 => rolling_mean_some 30 price i (by norm_num) hi (by omega),
    fun i hi => rolling_mean_none 30 price i (by omega)⟩

/-- C8 witness: over ten constant prices, SMA_10 is defined at index 9 and
null at index 0. -/
theorem C8_sma_trailing_mean_witness :
    9 < (List.replicate 10 (1 : ℚ)).length ∧
    SMA_10 (List.replicate 10 (1 : ℚ)) 9 =
      some ((((List.replicate 10 (1 : ℚ)).drop (9 + 1 - 10)).take 10).sum / (10 : ℚ)) ∧
    SMA_10 (List.replicate 10 (1 : ℚ)) 0 = none :=
  ⟨by norm_num,
    (C8_sma_trailing_mean (List.replicate 10 (1 : ℚ))).1 9 (by norm_num) (by norm_num),
    (C8_sma_trailing_mean (List.replicate 10 (1 : ℚ))).2.1 0 (by norm_num)⟩

/-- C9 counterexample: the price series `[-1, 0]` is strictly increasing, yet
its defined return at index 1 is `-100`, which is not positive — refuting the
claim for arbitrary strictly increasing price series. -/
theorem C9_returns_counterexample :
    ((-1 : ℚ) < 0) ∧
    hourly_return [-1, 0] 1 = some (-100) ∧
    ¬ (0 : ℚ) < -100 := by
  refine ⟨by norm_num, ?_, by norm_num⟩
  unfold hourly_return
  norm_num

/-- C9 (amended): `return[0]` is null and
`return[i] = (price[i]/price[i-1] - 1) * 100` for `i ≥ 1` whenever
`price[i-1] ≠ 0` (a zero previous price yields no finite value); for every
strictly increasing series of positive prices all defined returns are
positive, and for every constant series all defined returns are zero. -/
theorem C9_returns_sign (price : List ℚ) :
    hourly_return price 0 = none ∧
    (∀ i, 1 ≤ i → price.getD (i - 1) 0 ≠ 0 →
      hourly_return price i =
        some ((price.getD i 0 / price.getD (i - 1) 0 - 1) * 100)) ∧
    ((∀ j, j < price.length → 0 < price.getD j 0) →
      (∀ i, 1 ≤ i → i < price.length → price.getD (i - 1) 0 < price.getD i 0) →
      ∀ i r, 1 ≤ i → i < price.length → hourly_return price i = some r → 0 < r) ∧
    (∀ c : ℚ, (∀ j, j < price.length → price.getD j 0 = c) →
      ∀ i r, 1 ≤ i → i < price.length → hourly_return price i = some r → r = 0) := by
  refine ⟨rfl, ?_, ?_, ?_⟩
  · intro i h1 hz
    unfold hourly_return
    rw [if_neg (by omega), if_neg hz]
    congr 1
    have key : ∀ a b : ℚ, b ≠ 0 → (a - b) / b * 100 = (a / b - 1) * 100 := by
      intro a b hb
      field_simp
    exact key _ _ hz
  · intro hpos hmono i r h1 hi hr
    have hz : 0 < price.getD (i - 1) 0 := hpos (i - 1) (by omega)
    have hlt : price.getD (i - 1) 0 < price.getD i 0 := hmono i h1 hi
    unfold hourly_return at hr
    rw [if_neg (by omega), if_neg (by linarith)] at hr
    have hr' : r = (price.getD i 0 - price.getD (i - 1) 0) / price.getD (i - 1) 0 * 100 :=
      (Option.some_injective _ hr).symm
    rw [hr']
    have hnum : 0 < price.getD i 0 - price.getD (i - 1) 0 := by linarith
    positivity
  · intro c hconst i r h1 hi hr
    have hc1 : price.getD (i - 1) 0 = c := hconst (i - 1) (by omega)
    have hc2 : price.getD i 0 = c := hconst i hi
    unfold hourly_return at hr
    rw [if_neg (by omega)] at hr
    by_cases hz : price.getD (i - 1) 0 = 0
    · rw [if_pos hz] at hr
      exact Option.noConfusion hr
    · rw [if_neg hz] at hr
      have hr' : r = (price.getD i 0 - price.getD (i - 1) 0) / price.getD (i - 1) 0 * 100 :=
        (Option.some_injective _ hr).symm
      rw [hr', hc1, hc2]
      simp

/-- C9 amended witness: for the positive increasing series `[1, 2]` the
return at index 1 is `(2/1 - 1) * 100` and it is positive. -/
theorem C9_returns_sign_witness :
    (([1, 2] : List ℚ).getD 0 0 ≠ 0 ∧
      hourly_return [1, 2] 1 =
        some ((([1, 2] : List ℚ).getD 1 0 / ([1, 2] : List ℚ).getD 0 0 - 1) * 100)) ∧
    (∀ r : ℚ, hourly_return [1, 2] 1 = some r → 0 < r) :=
  ⟨⟨by norm_num, (C9_returns_sign [1, 2]).2.1 1 (by norm_num) (by norm_num)⟩,
    fun r hr => (C9_returns_sign [1, 2]).2.2.1
      (by
        intro j hj
        have hj2 : j < 2 := by simpa using hj
        interval_cases j <;> decide)
      (by
        intro i h1 hi
        have hi2 : i < 2 := by simpa using hi
        interval_cases i
        decide)
      1 r (by norm_num) (by norm_num) hr⟩

end CryptoDash
